import Mathlib

/-!
Verification of the plugin trust-and-orchestration core of `md-to-pdf`
(`internal/plugins/security.go`, `internal/plugins/manager.go`).

The Go code is shallowly embedded: pure functions become Lean functions,
file/ern I/O results (file contents, checksums, directory queries) become
explicit parameters, and Go `(value, error)` returns become `Except` or
`Option` results.  Strings are modelled as Lean `String` / `List Char`;
all definitions are executable and structurally recursive so that concrete
runs evaluate by `decide`.
-/

namespace MdToPdf

/-! ### Models of the Go standard-library string helpers used by the code -/

/-- Model of Go `unicode.IsSpace` (the White_Space property): the ASCII and
Latin-1 space characters plus the higher Unicode space code points. -/
def goIsSpace (c : Char) : Bool :=
  let n := c.toNat
  n = 9 || n = 10 || n = 11 || n = 12 || n = 13 || n = 32 || n = 0x85 || n = 0xA0 ||
  n = 0x1680 || (0x2000 ≤ n && n ≤ 0x200A) || n = 0x2028 || n = 0x2029 ||
  n = 0x202F || n = 0x205F || n = 0x3000

/-- Model of Go `strings.TrimSpace`: drop leading and trailing white space. -/
def goTrimSpace (l : List Char) : List Char :=
  ((l.dropWhile goIsSpace).reverse.dropWhile goIsSpace).reverse

/-- Does `l` start with the sequence `sub`?  Model of Go `strings.HasPrefix`
restricted to character lists. -/
def startsSeq : List Char → List Char → Bool
  | [], _ => true
  | _ :: _, [] => false
  | a :: as, b :: bs => a = b && startsSeq as bs

/-- Does `l` contain `sub` as a contiguous subsequence?  Model of Go
`strings.Contains`. -/
def containsSeq (sub : List Char) : List Char → Bool
  | [] => startsSeq sub []
  | b :: bs => startsSeq sub (b :: bs) || containsSeq sub bs

/-- Model of Go `strings.Split` with a single-character separator: the
substrings between occurrences of `sep` (an empty input yields `[[]]`,
exactly as Go returns `[""]`). -/
def splitSeq (sep : Char) : List Char → List (List Char)
  | [] => [[]]
  | c :: cs =>
    if c = sep then [] :: splitSeq sep cs
    else
      match splitSeq sep cs with
      | [] => [[c]]
      | r :: rs => (c :: r) :: rs

/-- Split on any character satisfying `p` (used for the spec-level segment
view of a path, where both slash styles delimit segments). -/
def splitPred (p : Char → Bool) : List Char → List (List Char)
  | [] => [[]]
  | c :: cs =>
    if p c then [] :: splitPred p cs
    else
      match splitPred p cs with
      | [] => [[c]]
      | r :: rs => (c :: r) :: rs

/-- Model of Go `unicode`/`strings` ASCII lower-casing of one character, the
case-folding step of `strings.EqualFold` on ASCII input. -/
def goFoldChar (c : Char) : Char :=
  if 'A' ≤ c ∧ c ≤ 'Z' then Char.ofNat (c.toNat + 32) else c

/-- Model of Go `strings.EqualFold` (simple case folding; exact on ASCII
strings, which is what checksums are): compare character-wise after
folding. -/
def goEqualFold : List Char → List Char → Bool
  | [], [] => true
  | a :: as, b :: bs => (a = b || goFoldChar a = goFoldChar b) && goEqualFold as bs
  | _, _ => false

/-- Model of Go `strings.ToLower` on ASCII data (checksums are validated hex
before being lower-cased). -/
def goToLower (l : List Char) : List Char :=
  l.map goFoldChar

/-- Is `c` a hex digit, as accepted by Go `encoding/hex.DecodeString`. -/
def goIsHexDigit (c : Char) : Bool :=
  ('0' ≤ c && c ≤ '9') || ('a' ≤ c && c ≤ 'f') || ('A' ≤ c && c ≤ 'F')

/-- Model of "Go `encoding/hex.DecodeString` succeeds": every character is a
hex digit and the length is even. -/
def goHexDecodeOk (l : List Char) : Bool :=
  l.all goIsHexDigit && l.length % 2 = 0

/-! ### Path traversal guard (security.go, `containsPathTraversal`)

`filepath.ToSlash` returns the path unchanged when the platform separator is
`/` (Unix) and replaces every separator by `/` otherwise (Windows, separator
`\`).  The guard is modelled with the separator as an explicit platform
parameter. -/

/-- Model of Go `path/filepath.ToSlash` for a platform whose separator is
`separator`. -/
def toSlash (separator : Char) (path : String) : String :=
  if separator = '/' then path
  else ⟨path.data.map fun c => if c = separator then '/' else c⟩

/-- Embedding of `containsPathTraversal` (security.go lines 266-284): check
the three traversal patterns against the slash-normalized path with
`strings.Contains`. -/
def containsPathTraversal (separator : Char) (path : String) : Bool :=
  let patterns : List String := ["..", "..\\", "../"]
  let normalizedPath := toSlash separator path
  patterns.any fun pattern => containsSeq pattern.data normalizedPath.data

/-- Spec-level predicate, from the spec's words: some path segment, after
normalizing both forward- and back-slash styles, equals `..`. -/
def specHasDotDotSegment (path : String) : Bool :=
  (splitPred (fun c => c = '/' || c = '\\') path.data).any fun seg => seg = ['.', '.']

/-- Helper: a direct scanner for two consecutive dots, used to reason about
the substring check. -/
def hasDotDot : List Char → Bool
  | [] => false
  | [_] => false
  | a :: b :: t => (a = '.' && b = '.') || hasDotDot (b :: t)

theorem containsSeq_dotdot_eq_hasDotDot (l : List Char) :
    containsSeq ['.', '.'] l = hasDotDot l := by
  induction l with
  | nil => rfl
  | cons c cs ih =>
    cases cs with
    | nil => simp [containsSeq, startsSeq, hasDotDot]
    | cons d t =>
      rw [containsSeq, ih]
      simp [startsSeq, hasDotDot, eq_comm]

theorem hasDotDot_cons (c : Char) (cs : List Char) (h : hasDotDot cs = true) :
    hasDotDot (c :: cs) = true := by
  cases cs with
  | nil => simp [hasDotDot] at h
  | cons d t => rw [hasDotDot]; rw [h]; simp

theorem startsSeq_append_left (s t l : List Char) (h : startsSeq (s ++ t) l = true) :
    startsSeq s l = true := by
  induction s generalizing l with
  | nil => rfl
  | cons a as ih =>
    cases l with
    | nil => simp [startsSeq] at h
    | cons b bs =>
      rw [List.cons_append, startsSeq] at h
      rw [startsSeq]
      simp only [Bool.and_eq_true] at h ⊢
      exact ⟨h.1, ih bs h.2⟩

theorem containsSeq_append_left (s t l : List Char) (h : containsSeq (s ++ t) l = true) :
    containsSeq s l = true := by
  induction l with
  | nil =>
    rw [containsSeq] at h ⊢
    cases s with
    | nil => rfl
    | cons a as => simp [startsSeq] at h
  | cons b bs ih =>
    rw [containsSeq] at h ⊢
    simp only [Bool.or_eq_true] at h ⊢
    cases h with
    | inl h => exact Or.inl (startsSeq_append_left s t _ h)
    | inr h => exact Or.inr (ih h)

theorem splitPred_ne_nil (p : Char → Bool) (l : List Char) : splitPred p l ≠ [] := by
  cases l with
  | nil => simp [splitPred]
  | cons c cs =>
    rw [splitPred]
    split
    · simp
    · split <;> simp

theorem splitPred_head_startsSeq (p : Char → Bool) (l : List Char) :
    ∀ r rs, splitPred p l = r :: rs → startsSeq r l = true := by
  induction l with
  | nil =>
    intro r rs h
    rw [splitPred] at h
    cases h
    rfl
  | cons c cs ih =>
    intro r rs h
    rw [splitPred] at h
    split at h
    · cases h; rfl
    · revert h
      split
      · next heq => exact absurd heq (splitPred_ne_nil p cs)
      · next r' rs' heq =>
        intro h
        cases h
        simpa [startsSeq] using ih _ _ heq

theorem splitPred_dotdot_hasDotDot (p : Char → Bool) (l : List Char)
    (h : (splitPred p l).any (fun seg => seg = ['.', '.']) = true) : hasDotDot l = true := by
  induction l with
  | nil => simp [splitPred] at h
  | cons c cs ih =>
    rw [splitPred] at h
    split at h
    · simp only [List.any_cons, Bool.or_eq_true] at h
      cases h with
      | inl h => simp at h
      | inr h => exact hasDotDot_cons c cs (ih h)
    · next hpc =>
      revert h
      split
      · next heq => exact absurd heq (splitPred_ne_nil p cs)
      · next r rs heq =>
        intro h
        simp only [List.any_cons, Bool.or_eq_true, decide_eq_true_eq] at h
        cases h with
        | inl h =>
          injection h with hc hrr
          subst hc; subst hrr
          have hs := splitPred_head_startsSeq p cs ['.'] rs heq
          cases cs with
          | nil => simp [startsSeq] at hs
          | cons d t =>
            rw [startsSeq] at hs
            simp only [Bool.and_eq_true, decide_eq_true_eq] at hs
            obtain ⟨hd, -⟩ := hs
            subst hd
            rw [hasDotDot]
            simp
        | inr h =>
          have hcs : (splitPred p cs).any (fun seg => seg = ['.', '.']) = true := by
            rw [heq]
            simp only [List.any_cons, Bool.or_eq_true, decide_eq_true_eq]
            exact Or.inr (by simpa using h)
          exact hasDotDot_cons c cs (ih hcs)

/-- The backslash-to-slash normalization neither creates nor destroys a pair
of consecutive dots. -/
theorem hasDotDot_map_backslash (l : List Char) :
    hasDotDot (l.map fun c => if c = '\\' then '/' else c) = hasDotDot l := by
  have hdot : ∀ c : Char, ((if c = '\\' then '/' else c) = '.') ↔ c = '.' := by
    intro c
    by_cases hc : c = '\\'
    · subst hc; decide
    · simp [hc]
  induction l with
  | nil => rfl
  | cons a as ih =>
    cases as with
    | nil => simp [hasDotDot]
    | cons b t =>
      simp only [List.map_cons] at ih ⊢
      rw [hasDotDot, hasDotDot, ih]
      congr 1
      simp [hdot a, hdot b]

theorem containsPathTraversal_eq (sep : Char) (path : String) (hsep : sep = '/' ∨ sep = '\\') :
    containsPathTraversal sep path = containsSeq ['.', '.'] path.data := by
  have key : ∀ n : List Char,
      (containsSeq ['.', '.'] n || (containsSeq ['.', '.', '\\'] n || (containsSeq ['.', '.', '/'] n || false)))
        = containsSeq ['.', '.'] n := by
    intro n
    cases h : containsSeq ['.', '.'] n with
    | true => simp
    | false =>
      have h2 : containsSeq ['.', '.', '\\'] n = false := by
        cases hb : containsSeq ['.', '.', '\\'] n with
        | false => rfl
        | true =>
          exact absurd (containsSeq_append_left ['.', '.'] ['\\'] n hb) (by simp [h])
      have h3 : containsSeq ['.', '.', '/'] n = false := by
        cases hb : containsSeq ['.', '.', '/'] n with
        | false => rfl
        | true =>
          exact absurd (containsSeq_append_left ['.', '.'] ['/'] n hb) (by simp [h])
      simp [h2, h3]
  cases hsep with
  | inl h =>
    subst h
    rw [containsPathTraversal]
    simp only [List.any_cons, List.any_nil]
    rw [show toSlash '/' path = path from by rw [toSlash]; simp]
    exact key path.data
  | inr h =>
    subst h
    rw [containsPathTraversal]
    simp only [List.any_cons, List.any_nil]
    have hts : (toSlash '\\' path).data = path.data.map fun c => if c = '\\' then '/' else c := by
      rw [toSlash]
      simp
    rw [hts, key]
    rw [containsSeq_dotdot_eq_hasDotDot, containsSeq_dotdot_eq_hasDotDot]
    exact hasDotDot_map_backslash path.data

/-- Claim C1, counterexample: on the path `a..b`, whose only segment merely
contains `..` as a substring, the guard returns `true` while the spec's
segment-equality predicate returns `false` — refuting the claimed
equivalence at a concrete input. -/
theorem claim_C1_counterexample :
    containsPathTraversal '/' "a..b" = true ∧ specHasDotDotSegment "a..b" = false := by
  constructor <;> decide

/-- Claim C1 (amended): on both target platforms (separator `/` or `\`),
`containsPathTraversal` returns true iff the path contains `..` as a
substring (not merely as a whole segment); in particular every path with a
`..` segment is rejected, but a segment such as `a..b` is rejected too. -/
theorem claim_C1_traversal_substring (sep : Char) (path : String)
    (hsep : sep = '/' ∨ sep = '\\') :
    containsPathTraversal sep path = containsSeq ['.', '.'] path.data
    ∧ (specHasDotDotSegment path = true → containsPathTraversal sep path = true) := by
  refine ⟨containsPathTraversal_eq sep path hsep, fun hseg => ?_⟩
  rw [containsPathTraversal_eq sep path hsep, containsSeq_dotdot_eq_hasDotDot]
  exact splitPred_dotdot_hasDotDot _ path.data hseg

/-- Concrete instantiation of the amended C1 theorem at separator `/` and
path `a/../b`. -/
theorem claim_C1_witness :
    containsPathTraversal '/' "a/../b" = containsSeq ['.', '.'] "a/../b".data
    ∧ (specHasDotDotSegment "a/../b" = true → containsPathTraversal '/' "a/../b" = true) :=
  claim_C1_traversal_substring '/' "a/../b" (Or.inl rfl)

/-! ### Allowlist (security.go, `AllowlistEntry`, `PluginAllowlist`)

The Go `map[string]AllowlistEntry` is modelled as an association list with
last-write-wins insertion, which is exactly the observable semantics of map
assignment and lookup. -/

/-- Embedding of `AllowlistEntry` (security.go lines 67-72). -/
structure AllowlistEntry where
  name : List Char
  checksum : List Char
  enabled : Bool
deriving DecidableEq

/-- Embedding of `PluginAllowlist` (security.go lines 74-78); the mutex only
guards concurrent access and has no sequential semantics. -/
structure PluginAllowlist where
  entries : List (List Char × AllowlistEntry)
deriving DecidableEq

/-- Model of Go map assignment `m[k] = v`: overwrite the entry for `k` if
present, append otherwise. -/
def mapSet {β : Type} (m : List (List Char × β)) (k : List Char) (v : β) :
    List (List Char × β) :=
  if m.any fun e => e.1 = k then m.map fun e => if e.1 = k then (k, v) else e
  else m ++ [(k, v)]

/-- Model of Go map lookup `entry, exists := m[k]`. -/
def PluginAllowlist.lookup (a : PluginAllowlist) (name : List Char) : Option AllowlistEntry :=
  (a.entries.find? fun e => e.1 = name).map fun e => e.2

/-- Embedding of `PluginAllowlist.IsAllowed` (security.go lines 166-177). -/
def PluginAllowlist.IsAllowed (a : PluginAllowlist) (name checksum : List Char) : Bool :=
  match a.lookup name with
  | none => false
  | some entry => entry.enabled && goEqualFold entry.checksum checksum

/-- Embedding of `PluginAllowlist.HasEntry` (security.go lines 179-186). -/
def PluginAllowlist.HasEntry (a : PluginAllowlist) (name : List Char) : Bool :=
  (a.lookup name).isSome

/-- Embedding of `PluginAllowlist.GetExpectedChecksum` (security.go lines
188-198), with Go's `(value, ok)` pair as an `Option`. -/
def PluginAllowlist.GetExpectedChecksum (a : PluginAllowlist) (name : List Char) :
    Option (List Char) :=
  (a.lookup name).map fun e => e.checksum

/-- Embedding of `PluginAllowlist.IsEmpty` (security.go lines 200-205). -/
def PluginAllowlist.IsEmpty (a : PluginAllowlist) : Bool :=
  a.entries.isEmpty

theorem goEqualFold_iff_toLower (s t : List Char) :
    goEqualFold s t = true ↔ goToLower s = goToLower t := by
  induction s generalizing t with
  | nil =>
    cases t with
    | nil => simp [goEqualFold, goToLower]
    | cons b bs => simp [goEqualFold, goToLower]
  | cons a as ih =>
    cases t with
    | nil => simp [goEqualFold, goToLower]
    | cons b bs =>
      rw [goEqualFold]
      simp only [goToLower, List.map_cons, List.cons.injEq, Bool.and_eq_true, Bool.or_eq_true,
        decide_eq_true_eq]
      rw [show (List.map goFoldChar as = List.map goFoldChar bs) ↔
            (goToLower as = goToLower bs) from Iff.rfl, ← ih bs]
      constructor
      · rintro ⟨hab, hrest⟩
        refine ⟨?_, hrest⟩
        cases hab with
        | inl h => rw [h]
        | inr h => exact h
      · rintro ⟨hab, hrest⟩
        exact ⟨Or.inr hab, hrest⟩

/-- Claim C6: `IsAllowed(name, checksum)` is true iff an entry with that name
exists, is enabled, and its stored checksum equals the given one
case-insensitively; a disabled entry stays queryable through `HasEntry` but
never satisfies `IsAllowed`. -/
theorem claim_C6_isAllowed_iff (a : PluginAllowlist) (name checksum : List Char) :
    (a.IsAllowed name checksum = true ↔
      ∃ e, a.lookup name = some e ∧ e.enabled = true ∧
        goToLower e.checksum = goToLower checksum)
    ∧ (∀ e, a.lookup name = some e → e.enabled = false →
        a.HasEntry name = true ∧ a.IsAllowed name checksum = false) := by
  constructor
  · rw [PluginAllowlist.IsAllowed]
    cases hl : a.lookup name with
    | none => simp
    | some entry =>
      simp only [Bool.and_eq_true, Option.some.injEq]
      rw [goEqualFold_iff_toLower]
      constructor
      · rintro ⟨he, hc⟩
        exact ⟨entry, rfl, he, hc⟩
      · rintro ⟨e, he, hen, hc⟩
        cases he
        exact ⟨hen, hc⟩
  · intro e he hdis
    constructor
    · rw [PluginAllowlist.HasEntry, he]
      rfl
    · rw [PluginAllowlist.IsAllowed, he]
      simp [hdis]

/-- Concrete instantiation of C6 at a single-entry allowlist whose entry is
disabled: it is queryable but never authorizes. -/
theorem claim_C6_witness :
    (PluginAllowlist.mk [("p".data, ⟨"p".data, "AA".data, false⟩)]).HasEntry "p".data = true
    ∧ (PluginAllowlist.mk [("p".data, ⟨"p".data, "AA".data, false⟩)]).IsAllowed
        "p".data "aa".data = false :=
  (claim_C6_isAllowed_iff (PluginAllowlist.mk [("p".data, ⟨"p".data, "AA".data, false⟩)])
    "p".data "aa".data).2 ⟨"p".data, "AA".data, false⟩ (by decide) rfl

/-! ### Allowlist file parsing (security.go, `LoadAllowlistFromFile`)

The scanner loop of `LoadAllowlistFromFile` (security.go lines 113-163) is
embedded with the file's contents given as its list of lines; the earlier
path-traversal check and file opening are I/O outside this loop (an empty
path or a missing file short-circuits to an empty allowlist before the loop
runs). -/

/-- The four line-level failure reasons of the loader, in source order. -/
inductive AllowlistLoadErrorKind where
  | badFormat
  | emptyField
  | badLength
  | badHex
deriving DecidableEq

/-- A line-numbered load error; each `fmt.Errorf` in the loop embeds the
1-based `lineNum` of the offending line. -/
structure AllowlistLoadError where
  lineNum : Nat
  kind : AllowlistLoadErrorKind
deriving DecidableEq

/-- Embedding of the scanner loop of `LoadAllowlistFromFile`: `lineNum0` is
the number of lines already consumed and `acc` the entries built so far. -/
def loadAllowlistLoop :
    List (List Char) → Nat → List (List Char × AllowlistEntry) →
      Except AllowlistLoadError PluginAllowlist
  | [], _, acc => .ok ⟨acc⟩
  | raw :: rest, lineNum0, acc =>
    let lineNum := lineNum0 + 1
    let line := goTrimSpace raw
    if line.isEmpty || startsSeq ['#'] line then loadAllowlistLoop rest lineNum acc
    else
      let parts := splitSeq ':' line
      if parts.length < 2 then .error ⟨lineNum, .badFormat⟩
      else
        let name := goTrimSpace (parts.getD 0 [])
        let checksum := goTrimSpace (parts.getD 1 [])
        if name.isEmpty || checksum.isEmpty then .error ⟨lineNum, .emptyField⟩
        else if checksum.length != 64 then .error ⟨lineNum, .badLength⟩
        else if !goHexDecodeOk checksum then .error ⟨lineNum, .badHex⟩
        else
          let enabled :=
            if 3 ≤ parts.length ∧ goTrimSpace (parts.getD 2 []) = "disabled".data then false
            else true
          loadAllowlistLoop rest lineNum
            (mapSet acc name ⟨name, goToLower checksum, enabled⟩)

/-- Embedding of `LoadAllowlistFromFile` on the file's lines. -/
def loadAllowlistFromLines (lines : List (List Char)) :
    Except AllowlistLoadError PluginAllowlist :=
  loadAllowlistLoop lines 0 []

/-- A line the loop does not skip: non-blank after trimming and not a `#`
comment. -/
def lineRelevant (raw : List Char) : Bool :=
  let line := goTrimSpace raw
  !(line.isEmpty || startsSeq ['#'] line)

/-- The claim's malformedness conditions for a (relevant) line, in the
loop's checking order. -/
def lineMalformed (raw : List Char) : Bool :=
  let parts := splitSeq ':' (goTrimSpace raw)
  if parts.length < 2 then true
  else
    let name := goTrimSpace (parts.getD 0 [])
    let checksum := goTrimSpace (parts.getD 1 [])
    name.isEmpty || checksum.isEmpty || (checksum.length != 64) || !goHexDecodeOk checksum

/-- Which load error a malformed line produces (first failing check wins,
as in the source). -/
def lineErrorKind (raw : List Char) : AllowlistLoadErrorKind :=
  let parts := splitSeq ':' (goTrimSpace raw)
  if parts.length < 2 then .badFormat
  else
    let name := goTrimSpace (parts.getD 0 [])
    let checksum := goTrimSpace (parts.getD 1 [])
    if name.isEmpty || checksum.isEmpty then .emptyField
    else if checksum.length != 64 then .badLength
    else .badHex

/-- Field projections of a well-formed line, used to state what gets
stored. -/
def entryName (raw : List Char) : List Char :=
  goTrimSpace ((splitSeq ':' (goTrimSpace raw)).getD 0 [])

def entryChecksum (raw : List Char) : List Char :=
  goTrimSpace ((splitSeq ':' (goTrimSpace raw)).getD 1 [])

def entryEnabled (raw : List Char) : Bool :=
  if 3 ≤ (splitSeq ':' (goTrimSpace raw)).length ∧
      goTrimSpace ((splitSeq ':' (goTrimSpace raw)).getD 2 []) = "disabled".data then false
  else true

theorem loadAllowlistLoop_cons_skip (raw : List Char) (rest : List (List Char)) (n : Nat)
    (acc : List (List Char × AllowlistEntry)) (h : lineRelevant raw = false) :
    loadAllowlistLoop (raw :: rest) n acc = loadAllowlistLoop rest (n + 1) acc := by
  rw [lineRelevant] at h
  simp only [Bool.not_eq_false', Bool.or_eq_true] at h
  rw [loadAllowlistLoop]
  simp only [Bool.or_eq_true]
  rw [if_pos h]

theorem loadAllowlistLoop_cons_error (raw : List Char) (rest : List (List Char)) (n : Nat)
    (acc : List (List Char × AllowlistEntry)) (hrel : lineRelevant raw = true)
    (hbad : lineMalformed raw = true) :
    loadAllowlistLoop (raw :: rest) n acc = .error ⟨n + 1, lineErrorKind raw⟩ := by
  rw [lineRelevant] at hrel
  simp only [Bool.not_eq_true', Bool.or_eq_false_iff] at hrel
  rw [lineMalformed] at hbad
  rw [loadAllowlistLoop, lineErrorKind]
  simp only [Bool.or_eq_true, hrel.1, hrel.2, Bool.false_eq_true, or_self, if_false]
  by_cases hlen : (splitSeq ':' (goTrimSpace raw)).length < 2
  · rw [if_pos hlen, if_pos hlen]
  · rw [if_neg hlen] at hbad
    simp only [Bool.or_eq_true] at hbad
    rw [if_neg hlen, if_neg hlen]
    by_cases hc2 : (goTrimSpace ((splitSeq ':' (goTrimSpace raw)).getD 0 [])).isEmpty = true ∨
        (goTrimSpace ((splitSeq ':' (goTrimSpace raw)).getD 1 [])).isEmpty = true
    · rw [if_pos hc2, if_pos hc2]
    · rw [if_neg hc2, if_neg hc2]
      by_cases hc3 : ((goTrimSpace ((splitSeq ':' (goTrimSpace raw)).getD 1 [])).length != 64)
          = true
      · rw [if_pos hc3, if_pos hc3]
      · rw [if_neg hc3, if_neg hc3]
        have hc4 : (!goHexDecodeOk (goTrimSpace ((splitSeq ':' (goTrimSpace raw)).getD 1 [])))
            = true := by
          rcases hbad with ((h | h) | h) | h
          · exact absurd (Or.inl h) hc2
          · exact absurd (Or.inr h) hc2
          · exact absurd h hc3
          · exact h
        rw [if_pos hc4]

theorem loadAllowlistLoop_cons_ok (raw : List Char) (rest : List (List Char)) (n : Nat)
    (acc : List (List Char × AllowlistEntry)) (hrel : lineRelevant raw = true)
    (hok : lineMalformed raw = false) :
    loadAllowlistLoop (raw :: rest) n acc =
      loadAllowlistLoop rest (n + 1)
        (mapSet acc (entryName raw)
          ⟨entryName raw, goToLower (entryChecksum raw), entryEnabled raw⟩) := by
  rw [lineRelevant] at hrel
  simp only [Bool.not_eq_true', Bool.or_eq_false_iff] at hrel
  rw [loadAllowlistLoop]
  simp only [Bool.or_eq_true, hrel.1, hrel.2, Bool.false_eq_true, or_self, if_false]
  rw [lineMalformed] at hok
  by_cases hlen : (splitSeq ':' (goTrimSpace raw)).length < 2
  · rw [if_pos hlen] at hok
    exact absurd hok (by simp)
  · rw [if_neg hlen] at hok
    rw [if_neg hlen]
    simp only [Bool.or_eq_false_iff] at hok
    rw [if_neg (by rw [hok.1.1.1, hok.1.1.2]; simp)]
    rw [if_neg (by rw [hok.1.2]; simp)]
    rw [if_neg (by rw [hok.2]; simp)]
    rfl

/-- Claim C4: if any relevant (non-blank, non-comment) line of the input is
malformed, the load returns an error carrying the 1-based number of the
first such line (and hence no allowlist value at all — the error branch of
`Except` carries none, as the Go code returns `nil`). -/
theorem claim_C4_malformed_aborts (lines : List (List Char))
    (h : (lines.any fun raw => lineRelevant raw && lineMalformed raw) = true) :
    loadAllowlistFromLines lines =
      .error ⟨(lines.findIdx fun raw => lineRelevant raw && lineMalformed raw) + 1,
        lineErrorKind
          (lines.getD (lines.findIdx fun raw => lineRelevant raw && lineMalformed raw) [])⟩ := by
  rw [loadAllowlistFromLines]
  suffices hgen : ∀ (ls : List (List Char)) (n : Nat) (acc : List (List Char × AllowlistEntry)),
      (ls.any fun raw => lineRelevant raw && lineMalformed raw) = true →
      loadAllowlistLoop ls n acc =
        .error ⟨n + (ls.findIdx fun raw => lineRelevant raw && lineMalformed raw) + 1,
          lineErrorKind (ls.getD (ls.findIdx fun raw => lineRelevant raw && lineMalformed raw) [])⟩ by
    simpa using hgen lines 0 [] h
  intro ls
  induction ls with
  | nil => intro n acc hany; simp at hany
  | cons raw rest ih =>
    intro n acc hany
    by_cases hP : (lineRelevant raw && lineMalformed raw) = true
    · simp only [Bool.and_eq_true] at hP
      rw [List.findIdx_cons]
      simp only [Bool.and_eq_true, hP.1, hP.2, Bool.true_and, cond_true]
      rw [loadAllowlistLoop_cons_error raw rest n acc hP.1 hP.2]
      simp
    · have hfalse : (lineRelevant raw && lineMalformed raw) = false := by
        revert hP; cases lineRelevant raw && lineMalformed raw <;> simp
      have hrest : (rest.any fun r => lineRelevant r && lineMalformed r) = true := by
        simp only [List.any_cons, Bool.or_eq_true] at hany
        rcases hany with h1 | h1
        · exact absurd h1 hP
        · exact h1
      simp only [List.findIdx_cons, hfalse, cond_false]
      cases hr : lineRelevant raw with
      | false =>
        rw [loadAllowlistLoop_cons_skip raw rest n acc hr]
        rw [ih (n + 1) acc hrest]
        simp only [Except.error.injEq, AllowlistLoadError.mk.injEq, List.getD_cons_succ]
        exact ⟨by omega, trivial⟩
      | true =>
        have hbadf : lineMalformed raw = false := by
          rw [Bool.and_eq_false_iff] at hfalse
          rcases hfalse with h1 | h1
          · rw [hr] at h1; exact absurd h1 (by simp)
          · exact h1
        rw [loadAllowlistLoop_cons_ok raw rest n acc hr hbadf]
        rw [ih (n + 1) _ hrest]
        simp only [Except.error.injEq, AllowlistLoadError.mk.injEq, List.getD_cons_succ]
        exact ⟨by omega, trivial⟩

/-- Concrete instantiation of C4: a file whose first line is a comment, whose
second line is well-formed and whose third line has a 63-character checksum
fails with an error naming line 3. -/
theorem claim_C4_witness :
    loadAllowlistFromLines
      ["# comment".data,
       "a:e3b0c44298fc1c149afbf4c8996fb92427ae41e4649b934ca495991b7852b855".data,
       "b:e3b0c44298fc1c149afbf4c8996fb92427ae41e4649b934ca495991b7852b85".data] =
      .error ⟨3, .badLength⟩ := by
  rw [claim_C4_malformed_aborts _ (by decide)]
  simp only [Except.error.injEq]
  decide

/-- Claim C10: a third colon-separated field whose trimmed value is not
exactly `disabled` is silently ignored — the loop continues without error
and the entry is stored with `enabled = true`. -/
theorem claim_C10_unrecognized_third_field (raw : List Char) (rest : List (List Char)) (n : Nat)
    (acc : List (List Char × AllowlistEntry))
    (hrel : lineRelevant raw = true) (hok : lineMalformed raw = false)
    (h3 : 3 ≤ (splitSeq ':' (goTrimSpace raw)).length)
    (hdis : goTrimSpace ((splitSeq ':' (goTrimSpace raw)).getD 2 []) ≠ "disabled".data) :
    loadAllowlistLoop (raw :: rest) n acc =
      loadAllowlistLoop rest (n + 1)
        (mapSet acc (entryName raw) ⟨entryName raw, goToLower (entryChecksum raw), true⟩) := by
  rw [loadAllowlistLoop_cons_ok raw rest n acc hrel hok]
  have he : entryEnabled raw = true := by
    rw [entryEnabled, if_neg]
    rintro ⟨-, h⟩
    exact hdis h
  rw [he]

/-- A concrete allowlist line whose third field is `DISABLED` (wrong case,
hence unrecognized). -/
def demoThirdFieldLine : List Char :=
  "p:e3b0c44298fc1c149afbf4c8996fb92427ae41e4649b934ca495991b7852b855:DISABLED".data

/-- Concrete instantiation of C10: the `DISABLED` third field is ignored and
the entry is stored enabled. -/
theorem claim_C10_witness :
    loadAllowlistLoop [demoThirdFieldLine] 0 [] =
      loadAllowlistLoop [] 1
        (mapSet [] (entryName demoThirdFieldLine)
          ⟨entryName demoThirdFieldLine, goToLower (entryChecksum demoThirdFieldLine), true⟩) :=
  claim_C10_unrecognized_third_field demoThirdFieldLine [] 0 []
    (by decide) (by decide) (by decide) (by decide)

/-! ### Security verifier (security.go, `VerifyPlugin`)

`VerifyPlugin` performs two I/O probes — the file checksum and the
working-directory / trusted-directory containment checks — whose results are
passed in as explicit parameters (`checksumResult`, `workDirResult`,
`inTrusted`); everything else is the source's decision logic, transcribed
branch for branch. -/

/-- Embedding of `SecurityConfig` (security.go lines 17-26). -/
structure SecurityConfig where
  RequireVerification : Bool
  AllowlistPath : List Char
  AllowUnsignedPlugins : Bool
  TrustedDirectories : List (List Char)
deriving DecidableEq

/-- Embedding of `DefaultSecurityConfig` (security.go lines 29-36). -/
def DefaultSecurityConfig : SecurityConfig :=
  { RequireVerification := false
    AllowlistPath := []
    AllowUnsignedPlugins := true
    TrustedDirectories := [] }

/-- Embedding of `PluginSecurityError` (security.go lines 39-44); the
`Cause` error chain is modelled by its message. -/
structure PluginSecurityError where
  Plugin : List Char
  Operation : List Char
  Reason : List Char
  Cause : Option (List Char)
deriving DecidableEq

/-- Embedding of `PluginLoadEvent` (security.go lines 340-348); the
timestamp is stamped by the logger, outside this model. -/
structure PluginLoadEvent where
  PluginPath : List Char
  PluginName : List Char
  Checksum : List Char
  Success : Bool
  Error : List Char
  SecurityWarning : List Char
deriving DecidableEq

/-- Embedding of `truncateChecksum` (security.go lines 394-399). -/
def truncateChecksum (checksum : List Char) : List Char :=
  if 12 < checksum.length then checksum.take 12 ++ "...".data else checksum

/-- Model of Go `path/filepath.Base` on a Unix separator: strip trailing
slashes, keep the part after the last remaining slash, with the `.` and `/`
degenerate cases. -/
def filepathBase (path : List Char) : List Char :=
  if path.isEmpty then ".".data
  else
    let p1 := (path.reverse.dropWhile fun c => c = '/').reverse
    let p2 := (p1.reverse.takeWhile fun c => c != '/').reverse
    if p2.isEmpty then "/".data else p2

/-- Embedding of `VerifyPlugin` (security.go lines 402-475).  The returned
pair mirrors Go's `(event, error)`. -/
def VerifyPlugin (path : List Char) (config : SecurityConfig)
    (allowlist : Option PluginAllowlist)
    (checksumResult : Except (List Char) (List Char))
    (workDirResult : Except (List Char) Bool) (inTrusted : Bool) :
    PluginLoadEvent × Option PluginSecurityError :=
  let event0 : PluginLoadEvent :=
    { PluginPath := path, PluginName := filepathBase path, Checksum := []
      Success := false, Error := [], SecurityWarning := [] }
  match checksumResult with
  | .error err =>
    ({ event0 with Error := "failed to calculate checksum: ".data ++ err },
     some { Plugin := path, Operation := "checksum".data
            Reason := "failed to calculate file checksum".data, Cause := some err })
  | .ok checksum =>
    let event1 := { event0 with Checksum := checksum }
    let event2 :=
      match workDirResult with
      | .error e => { event1 with SecurityWarning := "could not verify path safety: ".data ++ e }
      | .ok inWorkDir =>
        if !inWorkDir then
          if !inTrusted then
            { event1 with SecurityWarning :=
              "plugin loaded from directory outside current working directory and trusted paths".data }
          else event1
        else event1
    let fallback : PluginLoadEvent × Option PluginSecurityError :=
      if config.RequireVerification then
        ({ event2 with Error := "verification required but no allowlist configured".data },
         some { Plugin := path, Operation := "verification".data
                Reason := "plugin verification required but no allowlist is configured".data
                Cause := none })
      else if !config.AllowUnsignedPlugins then
        ({ event2 with Error := "unsigned plugins not allowed".data },
         some { Plugin := path, Operation := "verification".data
                Reason := "unsigned plugins are not allowed by security policy".data
                Cause := none })
      else
        ({ event2 with
            SecurityWarning := "plugin loaded without checksum verification".data
            Success := true }, none)
    match allowlist with
    | some al =>
      if !al.IsEmpty then
        if !(al.IsAllowed (filepathBase path) checksum) then
          if al.HasEntry (filepathBase path) then
            ({ event2 with Error :=
                "checksum mismatch: expected ".data
                ++ truncateChecksum ((al.GetExpectedChecksum (filepathBase path)).getD [])
                ++ ", got ".data ++ truncateChecksum checksum },
             some { Plugin := path, Operation := "verification".data
                    Reason := "plugin checksum does not match allowlist".data, Cause := none })
          else
            ({ event2 with Error := "plugin not in allowlist".data },
             some { Plugin := path, Operation := "verification".data
                    Reason := "plugin not found in allowlist".data, Cause := none })
        else ({ event2 with Success := true }, none)
      else fallback
    | none => fallback

theorem isAllowed_false_of_no_entry (al : PluginAllowlist) (n c : List Char)
    (h : al.HasEntry n = false) : al.IsAllowed n c = false := by
  rw [PluginAllowlist.HasEntry] at h
  cases hl : al.lookup n with
  | none => rw [PluginAllowlist.IsAllowed, hl]
  | some e => rw [hl] at h; simp at h

/-- Claim C3: `VerifyPlugin`'s decision precedence.  With a non-empty
allowlist the allowlist alone decides, for every configuration: a missing
name yields the not-in-allowlist `SecurityError`, a present name failing
`IsAllowed` yields the checksum-mismatch `SecurityError`, a pass succeeds.
With an empty allowlist and `RequireVerification` the verification-required
`SecurityError` results regardless of `AllowUnsignedPlugins`; with both
fallback flags at their defaults verification succeeds with a non-empty
warning. -/
theorem claim_C3_verify_precedence (path : List Char) (config : SecurityConfig)
    (al : PluginAllowlist) (checksum : List Char)
    (wd : Except (List Char) Bool) (tr : Bool) :
    (al.IsEmpty = false →
      (al.IsAllowed (filepathBase path) checksum = true →
        (VerifyPlugin path config (some al) (.ok checksum) wd tr).2 = none ∧
        (VerifyPlugin path config (some al) (.ok checksum) wd tr).1.Success = true)
      ∧ (al.IsAllowed (filepathBase path) checksum = false →
          al.HasEntry (filepathBase path) = true →
          (VerifyPlugin path config (some al) (.ok checksum) wd tr).2 =
            some ⟨path, "verification".data,
              "plugin checksum does not match allowlist".data, none⟩)
      ∧ (al.HasEntry (filepathBase path) = false →
          (VerifyPlugin path config (some al) (.ok checksum) wd tr).2 =
            some ⟨path, "verification".data, "plugin not found in allowlist".data, none⟩))
    ∧ (al.IsEmpty = true → config.RequireVerification = true →
        (VerifyPlugin path config (some al) (.ok checksum) wd tr).2 =
          some ⟨path, "verification".data,
            "plugin verification required but no allowlist is configured".data, none⟩)
    ∧ (al.IsEmpty = true → config.RequireVerification = false →
        config.AllowUnsignedPlugins = true →
        (VerifyPlugin path config (some al) (.ok checksum) wd tr).2 = none ∧
        (VerifyPlugin path config (some al) (.ok checksum) wd tr).1.Success = true ∧
        (VerifyPlugin path config (some al) (.ok checksum) wd tr).1.SecurityWarning ≠ []) := by
  refine ⟨fun hne => ⟨fun ha => ?_, fun ha he => ?_, fun he => ?_⟩,
    fun hemp hrv => ?_, fun hemp hrv hau => ?_⟩
  · simp [VerifyPlugin, hne, ha]
  · simp [VerifyPlugin, hne, ha, he]
  · have ha := isAllowed_false_of_no_entry al (filepathBase path) checksum he
    simp [VerifyPlugin, hne, ha, he]
  · simp [VerifyPlugin, hemp, hrv]
  · simp [VerifyPlugin, hemp, hrv, hau]

/-- A one-entry allowlist whose stored checksum is `aa`. -/
def demoMismatchAllowlist : PluginAllowlist :=
  ⟨[("p.so".data, ⟨"p.so".data, "aa".data, true⟩)]⟩

/-- Concrete instantiations of C3: a checksum mismatch against a non-empty
allowlist, the required-verification failure, and the default-policy
success. -/
theorem claim_C3_witness :
    (VerifyPlugin "dir/p.so".data DefaultSecurityConfig (some demoMismatchAllowlist)
        (.ok "bb".data) (.ok true) false).2 =
      some ⟨"dir/p.so".data, "verification".data,
        "plugin checksum does not match allowlist".data, none⟩
    ∧ (VerifyPlugin "p.so".data { DefaultSecurityConfig with RequireVerification := true }
        (some ⟨[]⟩) (.ok "aa".data) (.ok true) false).2 =
      some ⟨"p.so".data, "verification".data,
        "plugin verification required but no allowlist is configured".data, none⟩
    ∧ (VerifyPlugin "p.so".data DefaultSecurityConfig (some ⟨[]⟩)
        (.ok "aa".data) (.ok true) false).2 = none :=
  ⟨((claim_C3_verify_precedence "dir/p.so".data DefaultSecurityConfig demoMismatchAllowlist
      "bb".data (.ok true) false).1 (by decide)).2.1 (by decide) (by decide),
   (claim_C3_verify_precedence "p.so".data
      { DefaultSecurityConfig with RequireVerification := true } ⟨[]⟩
      "aa".data (.ok true) false).2.1 rfl rfl,
   ((claim_C3_verify_precedence "p.so".data DefaultSecurityConfig ⟨[]⟩
      "aa".data (.ok true) false).2.2 rfl rfl rfl).1⟩

/-! ### Manager cleanup (manager.go, `Manager.Cleanup`)

The registered plugins (Go `map[string]Plugin`) are modelled as the list of
(name, cleanup-behaviour) pairs in iteration order; since the claim is
proved for every list, it covers every map iteration order.  A plugin's
`Cleanup()` call is modelled by its result, and the trace of performed calls
is returned alongside the collected errors. -/

/-- A registered extension as `Cleanup` sees it: its registry name and the
result its `Cleanup()` call produces (`none` = success). -/
structure PluginStub where
  name : List Char
  cleanupResult : Option (List Char)
deriving DecidableEq

/-- The cleanup loop of `Manager.Cleanup` (manager.go lines 329-335):
returns the names whose cleanup was invoked, in order, and the collected
`name: message` failure strings. -/
def cleanupTrace : List PluginStub → List (List Char) × List (List Char)
  | [] => ([], [])
  | p :: rest =>
    let r := cleanupTrace rest
    (p.name :: r.1,
     match p.cleanupResult with
     | some msg => (p.name ++ ": ".data ++ msg) :: r.2
     | none => r.2)

/-- Model of Go `strings.Join(errs, "; ")`. -/
def joinSemicolon : List (List Char) → List Char
  | [] => []
  | [e] => e
  | e :: rest => e ++ "; ".data ++ joinSemicolon rest

/-- Embedding of `Manager.Cleanup` (manager.go lines 327-342): aggregate all
failures into one error, succeed otherwise. -/
def ManagerCleanup (plugins : List PluginStub) : Option (List Char) :=
  let errs := (cleanupTrace plugins).2
  if 0 < errs.length then
    some ("plugin cleanup errors: ".data ++ joinSemicolon errs)
  else none

theorem joinSemicolon_mem_decomp (e : List Char) (errs : List (List Char)) (h : e ∈ errs) :
    ∃ pre post, joinSemicolon errs = pre ++ e ++ post := by
  induction errs with
  | nil => simp at h
  | cons e' rest ih =>
    cases rest with
    | nil =>
      simp only [List.mem_singleton] at h
      exact ⟨[], [], by rw [h]; simp [joinSemicolon]⟩
    | cons e2 rest2 =>
      rw [List.mem_cons] at h
      cases h with
      | inl h =>
        refine ⟨[], "; ".data ++ joinSemicolon (e2 :: rest2), ?_⟩
        rw [h,
          show joinSemicolon (e' :: e2 :: rest2) = e' ++ "; ".data ++ joinSemicolon (e2 :: rest2)
            from rfl]
        simp
      | inr h =>
        obtain ⟨pre, post, hd⟩ := ih h
        refine ⟨e' ++ "; ".data ++ pre, post, ?_⟩
        rw [show joinSemicolon (e' :: e2 :: rest2) = e' ++ "; ".data ++ joinSemicolon (e2 :: rest2)
            from rfl, hd]
        simp

theorem cleanupTrace_snd_mem (plugins : List PluginStub) (p : PluginStub) (msg : List Char)
    (hmem : p ∈ plugins) (hres : p.cleanupResult = some msg) :
    (p.name ++ ": ".data ++ msg) ∈ (cleanupTrace plugins).2 := by
  induction plugins with
  | nil => simp at hmem
  | cons q rest ih =>
    rw [List.mem_cons] at hmem
    rw [cleanupTrace]
    cases hmem with
    | inl h =>
      subst h
      rw [hres]
      simp
    | inr h =>
      cases hq : q.cleanupResult with
      | none => simpa using ih h
      | some m => simpa using Or.inr (ih h)

theorem cleanupTrace_snd_nil (plugins : List PluginStub)
    (h : ∀ p ∈ plugins, p.cleanupResult = none) : (cleanupTrace plugins).2 = [] := by
  induction plugins with
  | nil => rfl
  | cons q rest ih =>
    rw [cleanupTrace]
    rw [h q (by simp)]
    exact ih fun p hp => h p (by simp [hp])

/-- Claim C5: `Cleanup` invokes every registered extension's cleanup exactly
once, in registry order, unconditionally; when every cleanup succeeds it
returns success; and for every failing extension the single aggregate error
text contains that extension's `name: message` pair. -/
theorem claim_C5_cleanup (plugins : List PluginStub) :
    (cleanupTrace plugins).1 = plugins.map (fun p => p.name)
    ∧ ((∀ p ∈ plugins, p.cleanupResult = none) → ManagerCleanup plugins = none)
    ∧ (∀ p msg, p ∈ plugins → p.cleanupResult = some msg →
        ∃ pre post, ManagerCleanup plugins = some (pre ++ (p.name ++ ": ".data ++ msg) ++ post)) := by
  refine ⟨?_, fun hall => ?_, fun p msg hmem hres => ?_⟩
  · induction plugins with
    | nil => rfl
    | cons q rest ih =>
      rw [cleanupTrace]
      cases hq : q.cleanupResult <;> simp [ih]
  · rw [ManagerCleanup, cleanupTrace_snd_nil plugins hall]
    rfl
  · have hm := cleanupTrace_snd_mem plugins p msg hmem hres
    have hlen : 0 < (cleanupTrace plugins).2.length := List.length_pos.mpr (by
      intro hnil
      rw [hnil] at hm
      simp at hm)
    obtain ⟨pre, post, hd⟩ := joinSemicolon_mem_decomp _ _ hm
    refine ⟨"plugin cleanup errors: ".data ++ pre, post, ?_⟩
    rw [ManagerCleanup]
    simp only [hlen, if_pos]
    rw [hd]
    simp

/-- The demonstration registry for C5: three extensions, the first and last
failing. -/
def demoPlugins : List PluginStub :=
  [⟨"a".data, some "boom".data⟩, ⟨"b".data, none⟩, ⟨"c".data, some "bad".data⟩]

/-- Concrete instantiation of C5: all three cleanups run, and the failing
extension `c`'s pair appears in the aggregate error. -/
theorem claim_C5_witness :
    (cleanupTrace demoPlugins).1 = demoPlugins.map (fun p => p.name)
    ∧ (∃ pre post, ManagerCleanup demoPlugins =
        some (pre ++ ("c".data ++ ": ".data ++ "bad".data) ++ post)) :=
  ⟨(claim_C5_cleanup demoPlugins).1,
   (claim_C5_cleanup demoPlugins).2.2 ⟨"c".data, some "bad".data⟩ "bad".data
     (by decide) rfl⟩

/-! ### Transformer application (manager.go, `Manager.ApplyTransformers`)

goldmark `ast.Node` is consulted by the manager only through `Kind()`; the
node is modelled as a kind tag plus an opaque payload standing for the rest
of the tree.  A transformer's `Transform` is its function field; the context
is an opaque token.  In addition to Go's `(node, error)` result the model
returns the trace of invoked transformer names, which is what lets the
claims speak about which transformers ran. -/

/-- Model of a goldmark `ast.Node` as the manager observes it. -/
structure ASTNode where
  kind : Nat
  payload : Nat
deriving DecidableEq

/-- Embedding of the `ASTTransformer` capability (plugin interface): name,
priority, supported node kinds (empty = all) and the transform function. -/
structure ASTTransformer where
  name : List Char
  priority : Int
  supportedNodes : List Nat
  transform : ASTNode → Nat → Except (List Char) ASTNode

/-- Embedding of `Manager.ApplyTransformers` (manager.go lines 280-308),
returning `(result, error, trace of invoked transformer names)`. -/
def ApplyTransformers :
    List ASTTransformer → ASTNode → Nat →
      ASTNode × Option (List Char) × List (List Char)
  | [], result, _ => (result, none, [])
  | t :: rest, result, ctx =>
    if 0 < t.supportedNodes.length ∧
        ¬(t.supportedNodes.any fun nodeKind => result.kind == nodeKind) = true then
      ApplyTransformers rest result ctx
    else
      match t.transform result ctx with
      | .error e =>
        (result, some ("transformer ".data ++ t.name ++ " failed: ".data ++ e), [t.name])
      | .ok transformed =>
        ((ApplyTransformers rest transformed ctx).1,
         (ApplyTransformers rest transformed ctx).2.1,
         t.name :: (ApplyTransformers rest transformed ctx).2.2)

theorem applyTransformers_cons_skip (t : ASTTransformer) (rest : List ASTTransformer)
    (node : ASTNode) (ctx : Nat) (hne : t.supportedNodes ≠ [])
    (hnm : node.kind ∉ t.supportedNodes) :
    ApplyTransformers (t :: rest) node ctx = ApplyTransformers rest node ctx := by
  rw [ApplyTransformers, if_pos]
  refine ⟨List.length_pos.mpr hne, ?_⟩
  simp only [List.any_eq_true, beq_iff_eq, not_exists, not_and]
  intro k hk hkind
  exact hnm (hkind ▸ hk)

theorem applyTransformers_cons_invoked (t : ASTTransformer) (rest : List ASTTransformer)
    (node : ASTNode) (ctx : Nat)
    (hsup : t.supportedNodes = [] ∨ node.kind ∈ t.supportedNodes) :
    ApplyTransformers (t :: rest) node ctx =
      match t.transform node ctx with
      | .error e =>
        (node, some ("transformer ".data ++ t.name ++ " failed: ".data ++ e), [t.name])
      | .ok transformed =>
        ((ApplyTransformers rest transformed ctx).1,
         (ApplyTransformers rest transformed ctx).2.1,
         t.name :: (ApplyTransformers rest transformed ctx).2.2) := by
  rw [ApplyTransformers, if_neg]
  rintro ⟨hlen, hnone⟩
  cases hsup with
  | inl h => rw [h] at hlen; simp at hlen
  | inr h =>
    apply hnone
    simp only [List.any_eq_true, beq_iff_eq]
    exact ⟨node.kind, h, rfl⟩

/-- Claim C9: with zero registered transformers, `ApplyTransformers` is the
identity — the input node is returned with no error (and nothing was
invoked). -/
theorem claim_C9_empty_identity (node : ASTNode) (ctx : Nat) :
    ApplyTransformers [] node ctx = (node, none, []) :=
  rfl

/-- Claim C8: a transformer is invoked on the current working node exactly
when its supported-kind set is empty or contains the node's kind; when
invoked, its returned node fully replaces the working node seen downstream;
when skipped, the working node flows to the rest of the chain unchanged and
the transformer leaves no trace. -/
theorem claim_C8_supported_gating (t : ASTTransformer) (rest : List ASTTransformer)
    (node : ASTNode) (ctx : Nat) :
    ((t.supportedNodes = [] ∨ node.kind ∈ t.supportedNodes) →
      ApplyTransformers (t :: rest) node ctx =
        match t.transform node ctx with
        | .error e =>
          (node, some ("transformer ".data ++ t.name ++ " failed: ".data ++ e), [t.name])
        | .ok transformed =>
          ((ApplyTransformers rest transformed ctx).1,
           (ApplyTransformers rest transformed ctx).2.1,
           t.name :: (ApplyTransformers rest transformed ctx).2.2))
    ∧ (t.supportedNodes ≠ [] → node.kind ∉ t.supportedNodes →
        ApplyTransformers (t :: rest) node ctx = ApplyTransformers rest node ctx) :=
  ⟨fun hsup => applyTransformers_cons_invoked t rest node ctx hsup,
   fun hne hnm => applyTransformers_cons_skip t rest node ctx hne hnm⟩

/-- Claim C7: the chain is fail-fast.  If the prefix `ts1` runs cleanly to
working node `n1` with trace `inv`, and `t` (supported at `n1`) fails, then
no matter what follows in `ts2`, nothing after `t` is invoked, the working
node `n1` is returned, and the error wraps the failing transformer's name
with the underlying message. -/
theorem claim_C7_fail_fast (ts1 : List ASTTransformer) (t : ASTTransformer)
    (ts2 : List ASTTransformer) (node n1 : ASTNode) (ctx : Nat)
    (inv : List (List Char)) (e : List Char)
    (hpre : ApplyTransformers ts1 node ctx = (n1, none, inv))
    (hsup : t.supportedNodes = [] ∨ n1.kind ∈ t.supportedNodes)
    (herr : t.transform n1 ctx = .error e) :
    ApplyTransformers (ts1 ++ t :: ts2) node ctx =
      (n1, some ("transformer ".data ++ t.name ++ " failed: ".data ++ e),
       inv ++ [t.name]) := by
  induction ts1 generalizing node inv with
  | nil =>
    rw [ApplyTransformers] at hpre
    injection hpre with h1 h2
    injection h2 with h2 h3
    subst h1; subst h3
    have hstep : ApplyTransformers (t :: ts2) node ctx =
        (node, some ("transformer ".data ++ t.name ++ " failed: ".data ++ e), [t.name]) := by
      rw [applyTransformers_cons_invoked t ts2 node ctx hsup, herr]
    rw [List.nil_append, hstep]
    simp
  | cons u us ih =>
    by_cases hskip : u.supportedNodes ≠ [] ∧ node.kind ∉ u.supportedNodes
    · rw [applyTransformers_cons_skip u us node ctx hskip.1 hskip.2] at hpre
      rw [List.cons_append, applyTransformers_cons_skip u (us ++ t :: ts2) node ctx hskip.1 hskip.2]
      exact ih node inv hpre
    · have hsup2 : u.supportedNodes = [] ∨ node.kind ∈ u.supportedNodes := by
        by_cases h1 : u.supportedNodes = []
        · exact Or.inl h1
        · refine Or.inr ?_
          by_cases h2 : node.kind ∈ u.supportedNodes
          · exact h2
          · exact absurd ⟨h1, h2⟩ hskip
      rw [applyTransformers_cons_invoked u us node ctx hsup2] at hpre
      cases htr : u.transform node ctx with
      | error e2 =>
        rw [htr] at hpre
        simp at hpre
      | ok v =>
        rw [htr] at hpre
        simp only [Prod.mk.injEq] at hpre
        obtain ⟨hv1, hv2, hv3⟩ := hpre
        subst hv3
        have hx : ApplyTransformers us v ctx =
            (n1, none, (ApplyTransformers us v ctx).2.2) := by
          rw [← hv1, ← hv2]
        have hrec := ih v _ hx
        have hstep : ApplyTransformers (u :: (us ++ t :: ts2)) node ctx =
            ((ApplyTransformers (us ++ t :: ts2) v ctx).1,
             (ApplyTransformers (us ++ t :: ts2) v ctx).2.1,
             u.name :: (ApplyTransformers (us ++ t :: ts2) v ctx).2.2) := by
          rw [applyTransformers_cons_invoked u (us ++ t :: ts2) node ctx hsup2, htr]
        rw [List.cons_append, hstep, hrec]
        simp

/-- A transformer whose transform always fails with message `boom`. -/
def demoFailingTransformer : ASTTransformer :=
  ⟨"t1".data, 0, [], fun _ _ => .error "boom".data⟩

/-- A transformer that bumps the node payload (its side effect stands for
any downstream effect that must not happen after a failure). -/
def demoBumpTransformer : ASTTransformer :=
  ⟨"t2".data, 0, [], fun n _ => .ok ⟨n.kind, n.payload + 1⟩⟩

/-- Concrete instantiation of C7: in the chain `[t1, t2]` where `t1` fails,
`t2` is never invoked (the trace is exactly `[t1]`) and the error wraps
`t1`'s name and message. -/
theorem claim_C7_witness :
    ApplyTransformers [demoFailingTransformer, demoBumpTransformer] ⟨1, 0⟩ 0 =
      (⟨1, 0⟩, some ("transformer ".data ++ "t1".data ++ " failed: ".data ++ "boom".data),
       [] ++ ["t1".data]) :=
  claim_C7_fail_fast [] demoFailingTransformer [demoBumpTransformer] ⟨1, 0⟩ ⟨1, 0⟩ 0 [] "boom".data
    rfl (Or.inl rfl) rfl

/-- A transformer supporting only node kind 1 (standing for `Heading`). -/
def demoHeadingTransformer : ASTTransformer :=
  ⟨"h".data, 0, [1], fun n _ => .ok ⟨n.kind, n.payload + 1⟩⟩

/-- Concrete instantiation of C8: the kind-1-only transformer is skipped on
a kind-2 node (working node unchanged, no trace) and invoked on a kind-1
node. -/
theorem claim_C8_witness :
    ApplyTransformers [demoHeadingTransformer] ⟨2, 0⟩ 0 = ApplyTransformers [] ⟨2, 0⟩ 0
    ∧ ApplyTransformers [demoHeadingTransformer] ⟨1, 0⟩ 0 =
        ((ApplyTransformers [] ⟨1, 1⟩ 0).1, (ApplyTransformers [] ⟨1, 1⟩ 0).2.1,
         "h".data :: (ApplyTransformers [] ⟨1, 1⟩ 0).2.2) :=
  ⟨(claim_C8_supported_gating demoHeadingTransformer [] ⟨2, 0⟩ 0).2 (by decide) (by decide),
   (claim_C8_supported_gating demoHeadingTransformer [] ⟨1, 0⟩ 0).1 (Or.inr (by decide))⟩

/-! ### The transformer sort of `Manager.LoadPlugins` (manager.go 143-147)

`LoadPlugins` ends its discovery pass with
`sort.Slice(m.transformers, func(i, j int) { return ts[i].Priority() < ts[j].Priority() })`.
Go's `sort.Slice` (since Go 1.19, and the repository requires Go 1.21) is
pattern-defeating quicksort, transcribed below from `sort/zsortfunc.go`
function for function.  The slice is modelled as a `List` indexed by
`getD`/`set`; loops are phrased as structural recursion, with an explicit
fuel argument where the Go loop's termination measure is not a recursion
argument (the fuel is chosen large enough that it never runs out on the
call patterns used).  `Less(i, j)` is `less (aget data i) (aget data j)`. -/

/-- Read `data[i]` (in-bounds on every call pattern used by the sort). -/
def aget {α : Type} [Inhabited α] (data : List α) (i : Nat) : α :=
  data.getD i default

/-- Model of Go `data.Swap(i, j)`. -/
def aswap {α : Type} [Inhabited α] (data : List α) (i j : Nat) : List α :=
  (data.set i (aget data j)).set j (aget data i)

/-- Inner loop of `insertionSort_func`: shift `data[j]` left while it is
strictly less than its left neighbour, stopping at index `a`. -/
def insertionSortInnerGo {α : Type} [Inhabited α] (less : α → α → Bool) (a : Nat) :
    Nat → List α → List α
  | 0, data => data
  | j + 1, data =>
    if a < j + 1 && less (aget data (j + 1)) (aget data j) then
      insertionSortInnerGo less a j (aswap data (j + 1) j)
    else data

/-- Outer loop of `insertionSort_func`: `i` runs from `a+1` while `k`
iterations remain. -/
def insertionSortOuterGo {α : Type} [Inhabited α] (less : α → α → Bool) (a : Nat) :
    Nat → Nat → List α → List α
  | _, 0, data => data
  | i, k + 1, data => insertionSortOuterGo less a (i + 1) k (insertionSortInnerGo less a i data)

/-- Transcription of `insertionSort_func(data, a, b)`. -/
def insertionSortGo {α : Type} [Inhabited α] (less : α → α → Bool) (data : List α)
    (a b : Nat) : List α :=
  insertionSortOuterGo less a (a + 1) (b - (a + 1)) data

/-- Transcription of `siftDown_func(data, lo(root), hi, first)`; the loop at
most doubles `root` each round, so `hi` is ample fuel. -/
def siftDownGo {α : Type} [Inhabited α] (less : α → α → Bool) :
    Nat → List α → Nat → Nat → Nat → List α
  | 0, data, _, _, _ => data
  | fuel + 1, data, root, hi, first =>
    let child := 2 * root + 1
    if hi ≤ child then data
    else
      let child :=
        if child + 1 < hi && less (aget data (first + child)) (aget data (first + child + 1)) then
          child + 1
        else child
      if !less (aget data (first + root)) (aget data (first + child)) then data
      else siftDownGo less fuel (aswap data (first + root) (first + child)) child hi first

/-- Heap-building loop of `heapSort_func`: `siftDown` for roots `k-1, …, 0`.
The argument is the number of roots left to process. -/
def heapSortBuildGo {α : Type} [Inhabited α] (less : α → α → Bool) :
    Nat → List α → Nat → Nat → List α
  | 0, data, _, _ => data
  | k + 1, data, hi, first => heapSortBuildGo less k (siftDownGo less hi data k hi first) hi first

/-- Pop loop of `heapSort_func`: `i` runs `hi-1, …, 1`. -/
def heapSortPopGo {α : Type} [Inhabited α] (less : α → α → Bool) :
    Nat → List α → Nat → List α
  | 0, data, _ => data
  | i + 1, data, first =>
    heapSortPopGo less i
      (siftDownGo less (i + 1) (aswap data first (first + (i + 1))) 0 (i + 1) first) first

/-- Transcription of `heapSort_func(data, a, b)`. -/
def heapSortGo {α : Type} [Inhabited α] (less : α → α → Bool) (data : List α)
    (a b : Nat) : List α :=
  let first := a
  let hi := b - a
  heapSortPopGo less (hi - 1) (heapSortBuildGo less ((hi - 1) / 2 + 1) data hi first) first

/-- Transcription of `reverseRange_func(data, a, b)` (fuel `b - a`). -/
def reverseRangeGo {α : Type} [Inhabited α] : Nat → List α → Nat → Nat → List α
  | 0, data, _, _ => data
  | fuel + 1, data, i, j =>
    if i < j then reverseRangeGo fuel (aswap data i j) (i + 1) (j - 1) else data

/-- Transcription of `order2_func`: order two indices, counting swaps. -/
def order2Go {α : Type} [Inhabited α] (less : α → α → Bool) (data : List α)
    (a b swaps : Nat) : Nat × Nat × Nat :=
  if less (aget data b) (aget data a) then (b, a, swaps + 1) else (a, b, swaps)

/-- Transcription of `median_func`: median index of three, counting swaps. -/
def medianGo {α : Type} [Inhabited α] (less : α → α → Bool) (data : List α)
    (a b c swaps : Nat) : Nat × Nat :=
  match order2Go less data a b swaps with
  | (a1, b1, s1) =>
    match order2Go less data b1 c s1 with
    | (b2, _, s2) =>
      match order2Go less data a1 b2 s2 with
      | (_, b3, s3) => (b3, s3)

/-- Transcription of `medianAdjacent_func`. -/
def medianAdjacentGo {α : Type} [Inhabited α] (less : α → α → Bool) (data : List α)
    (i swaps : Nat) : Nat × Nat :=
  medianGo less data (i - 1) i (i + 1) swaps

/-- The sortedness hint of `choosePivot_func`. -/
inductive SortedHint where
  | unknownHint
  | increasingHint
  | decreasingHint
deriving DecidableEq

/-- Transcription of `choosePivot_func` (shortestNinther = 50,
maxSwaps = 12). -/
def choosePivotGo {α : Type} [Inhabited α] (less : α → α → Bool) (data : List α)
    (a b : Nat) : Nat × SortedHint :=
  let l := b - a
  let i := a + l / 4 * 1
  let j := a + l / 4 * 2
  let k := a + l / 4 * 3
  if 8 ≤ l then
    if 50 ≤ l then
      match medianAdjacentGo less data i 0 with
      | (i1, s1) =>
        match medianAdjacentGo less data j s1 with
        | (j1, s2) =>
          match medianAdjacentGo less data k s2 with
          | (k1, s3) =>
            match medianGo less data i1 j1 k1 s3 with
            | (j2, s4) =>
              (j2, if s4 = 0 then .increasingHint
                   else if s4 = 12 then .decreasingHint
                   else .unknownHint)
    else
      match medianGo less data i j k 0 with
      | (j2, s4) =>
        (j2, if s4 = 0 then .increasingHint
             else if s4 = 12 then .decreasingHint
             else .unknownHint)
  else (j, .increasingHint)

/-- `partition_func`'s forward scan: advance `i` while `i ≤ j` and
`data[i] < data[a]`. -/
def partitionScanIGo {α : Type} [Inhabited α] (less : α → α → Bool) (data : List α)
    (a : Nat) : Nat → Nat → Nat → Nat
  | 0, i, _ => i
  | fuel + 1, i, j =>
    if i ≤ j && less (aget data i) (aget data a) then
      partitionScanIGo less data a fuel (i + 1) j
    else i

/-- `partition_func`'s backward scan: retreat `j` while `i ≤ j` and
`data[j] ≥ data[a]`. -/
def partitionScanJGo {α : Type} [Inhabited α] (less : α → α → Bool) (data : List α)
    (a : Nat) : Nat → Nat → Nat → Nat
  | 0, _, j => j
  | fuel + 1, i, j =>
    if i ≤ j && !less (aget data j) (aget data a) then
      partitionScanJGo less data a fuel i (j - 1)
    else j

/-- Main exchange loop of `partition_func` (fuel `b` is ample: `i` and `j`
close in every round). -/
def partitionLoopGo {α : Type} [Inhabited α] (less : α → α → Bool) (a b : Nat) :
    Nat → List α → Nat → Nat → Nat × List α
  | 0, data, _, j => (j, data)
  | fuel + 1, data, i, j =>
    let i1 := partitionScanIGo less data a b i j
    let j1 := partitionScanJGo less data a b i1 j
    if j1 < i1 then (j1, data)
    else partitionLoopGo less a b fuel (aswap data i1 j1) (i1 + 1) (j1 - 1)

/-- Transcription of `partition_func(data, a, b, pivot)`: returns the new
pivot position, the already-partitioned flag and the data. -/
def partitionGo {α : Type} [Inhabited α] (less : α → α → Bool) (data0 : List α)
    (a b pivot : Nat) : Nat × Bool × List α :=
  let data := aswap data0 a pivot
  let i := a + 1
  let j := b - 1
  let i1 := partitionScanIGo less data a b i j
  let j1 := partitionScanJGo less data a b i1 j
  if j1 < i1 then (j1, true, aswap data j1 a)
  else
    match partitionLoopGo less a b b (aswap data i1 j1) (i1 + 1) (j1 - 1) with
    | (jf, df) => (jf, false, aswap df jf a)

/-- Scan loops of `partitionEqual_func`. -/
def partitionEqualScanIGo {α : Type} [Inhabited α] (less : α → α → Bool) (data : List α)
    (a : Nat) : Nat → Nat → Nat → Nat
  | 0, i, _ => i
  | fuel + 1, i, j =>
    if i ≤ j && !less (aget data a) (aget data i) then
      partitionEqualScanIGo less data a fuel (i + 1) j
    else i

def partitionEqualScanJGo {α : Type} [Inhabited α] (less : α → α → Bool) (data : List α)
    (a : Nat) : Nat → Nat → Nat → Nat
  | 0, _, j => j
  | fuel + 1, i, j =>
    if i ≤ j && less (aget data a) (aget data j) then
      partitionEqualScanJGo less data a fuel i (j - 1)
    else j

/-- Main loop of `partitionEqual_func`. -/
def partitionEqualLoopGo {α : Type} [Inhabited α] (less : α → α → Bool) (a b : Nat) :
    Nat → List α → Nat → Nat → Nat × List α
  | 0, data, i, _ => (i, data)
  | fuel + 1, data, i, j =>
    let i1 := partitionEqualScanIGo less data a b i j
    let j1 := partitionEqualScanJGo less data a b i1 j
    if j1 < i1 then (i1, data)
    else partitionEqualLoopGo less a b fuel (aswap data i1 j1) (i1 + 1) (j1 - 1)

/-- Transcription of `partitionEqual_func(data, a, b, pivot)`. -/
def partitionEqualGo {α : Type} [Inhabited α] (less : α → α → Bool) (data0 : List α)
    (a b pivot : Nat) : Nat × List α :=
  let data := aswap data0 a pivot
  partitionEqualLoopGo less a b b data (a + 1) (b - 1)

/-- Forward advance of `partialInsertionSort_func`: skip the already-ordered
run. -/
def paisAdvanceGo {α : Type} [Inhabited α] (less : α → α → Bool) (data : List α)
    (b : Nat) : Nat → Nat → Nat
  | 0, i => i
  | fuel + 1, i =>
    if i < b && !less (aget data i) (aget data (i - 1)) then
      paisAdvanceGo less data b fuel (i + 1)
    else i

/-- Left-shift loop of `partialInsertionSort_func` (`j` runs down to 1). -/
def paisShiftLeftGo {α : Type} [Inhabited α] (less : α → α → Bool) :
    Nat → List α → List α
  | 0, data => data
  | j + 1, data =>
    if !less (aget data (j + 1)) (aget data j) then data
    else paisShiftLeftGo less j (aswap data (j + 1) j)

/-- Right-shift loop of `partialInsertionSort_func` (`j` runs up to `b`). -/
def paisShiftRightGo {α : Type} [Inhabited α] (less : α → α → Bool) (b : Nat) :
    Nat → Nat → List α → List α
  | 0, _, data => data
  | fuel + 1, j, data =>
    if j < b then
      if !less (aget data j) (aget data (j - 1)) then data
      else paisShiftRightGo less b fuel (j + 1) (aswap data j (j - 1))
    else data

/-- The `maxSteps = 5` rounds of `partialInsertionSort_func`
(shortestShifting = 50). -/
def partialInsertionSortLoopGo {α : Type} [Inhabited α] (less : α → α → Bool) (a b : Nat) :
    Nat → Nat → List α → Bool × List α
  | 0, _, data => (false, data)
  | steps + 1, i, data =>
    let i1 := paisAdvanceGo less data b b i
    if i1 = b then (true, data)
    else if b - a < 50 then (false, data)
    else
      let data1 := aswap data i1 (i1 - 1)
      let data2 := if 2 ≤ i1 - a then paisShiftLeftGo less (i1 - 1) data1 else data1
      let data3 := if 2 ≤ b - i1 then paisShiftRightGo less b (b - (i1 + 1)) (i1 + 1) data2
                   else data2
      partialInsertionSortLoopGo less a b steps i1 data3

/-- Transcription of `partialInsertionSort_func(data, a, b)`. -/
def partialInsertionSortGo {α : Type} [Inhabited α] (less : α → α → Bool)
    (data : List α) (a b : Nat) : Bool × List α :=
  partialInsertionSortLoopGo less a b 5 (a + 1) data

/-- One step of Go's `xorshift` PRNG on a 64-bit state. -/
def xorshiftNext (r : Nat) : Nat :=
  let r1 := (r ^^^ (r <<< 13)) % 2 ^ 64
  let r2 := r1 ^^^ (r1 >>> 7)
  (r2 ^^^ (r2 <<< 17)) % 2 ^ 64

/-- Model of Go `bits.Len` (a structural version of `⌊log2⌋ + 1`). -/
def bitsLenAux : Nat → Nat → Nat
  | 0, _ => 0
  | fuel + 1, n => if n = 0 then 0 else bitsLenAux fuel (n / 2) + 1

def bitsLen (n : Nat) : Nat := bitsLenAux n n

/-- Transcription of `nextPowerOfTwo`. -/
def nextPowerOfTwo (length : Nat) : Nat := 1 <<< bitsLen length

/-- Transcription of `breakPatterns_func(data, a, b)` with its three swap
rounds unrolled; the xorshift state is seeded with the length. -/
def breakPatternsGo {α : Type} [Inhabited α] (data : List α) (a b : Nat) : List α :=
  let length := b - a
  if 8 ≤ length then
    let modulus := nextPowerOfTwo length
    let idx := a + length / 4 * 2 - 1
    let r1 := xorshiftNext length
    let o1 := r1 &&& (modulus - 1)
    let other1 := if length ≤ o1 then o1 - length else o1
    let data1 := aswap data (idx - 1 + 0) (a + other1)
    let r2 := xorshiftNext r1
    let o2 := r2 &&& (modulus - 1)
    let other2 := if length ≤ o2 then o2 - length else o2
    let data2 := aswap data1 (idx - 1 + 1) (a + other2)
    let r3 := xorshiftNext r2
    let o3 := r3 &&& (modulus - 1)
    let other3 := if length ≤ o3 then o3 - length else o3
    aswap data2 (idx - 1 + 2) (a + other3)
  else data

/-- Transcription of `pdqsort_func(data, a, b, limit)` (maxInsertion = 12).
The Go `for` loop's continue is phrased as recursion; `fuel` bounds the
call depth, which is at most `b - a` since every continue and every
recursive call strictly shrinks the range. -/
def pdqsortGo {α : Type} [Inhabited α] (less : α → α → Bool) :
    Nat → List α → Nat → Nat → Nat → Bool → Bool → List α
  | 0, data, _, _, _, _, _ => data
  | fuel + 1, data, a, b, limit, wasBalanced, wasPartitioned =>
    let length := b - a
    if length ≤ 12 then insertionSortGo less data a b
    else if limit = 0 then heapSortGo less data a b
    else
      let dl := if !wasBalanced then (breakPatternsGo data a b, limit - 1) else (data, limit)
      match dl with
      | (data, limit) =>
        match choosePivotGo less data a b with
        | (pivot0, hint0) =>
          let dph :=
            if hint0 = .decreasingHint then
              (reverseRangeGo (b - a) data a b, (b - 1) - (pivot0 - a),
               SortedHint.increasingHint)
            else (data, pivot0, hint0)
          match dph with
          | (data, pivot, hint) =>
            let psr :=
              if wasBalanced && wasPartitioned && hint = .increasingHint then
                partialInsertionSortGo less data a b
              else (false, data)
            match psr with
            | (sorted, data) =>
              if sorted then data
              else
                if 0 < a && !less (aget data (a - 1)) (aget data pivot) then
                  match partitionEqualGo less data a b pivot with
                  | (mid, data) =>
                    pdqsortGo less fuel data mid b limit wasBalanced wasPartitioned
                else
                  match partitionGo less data a b pivot with
                  | (mid, alreadyPartitioned, data) =>
                    let wasPartitioned := alreadyPartitioned
                    let leftLen := mid - a
                    let rightLen := b - mid
                    let balanceThreshold := length / 8
                    let wasBalanced := decide (balanceThreshold ≤ min leftLen rightLen)
                    if leftLen < rightLen then
                      pdqsortGo less fuel
                        (pdqsortGo less fuel data a mid limit true true)
                        (mid + 1) b limit wasBalanced wasPartitioned
                    else
                      pdqsortGo less fuel
                        (pdqsortGo less fuel data (mid + 1) b limit true true)
                        a mid limit wasBalanced wasPartitioned

/-- Transcription of `sort.Slice`: `limit = bits.Len(length)`, full range. -/
def sortSliceGo {α : Type} [Inhabited α] (less : α → α → Bool) (xs : List α) : List α :=
  let length := xs.length
  let limit := bitsLen length
  pdqsortGo less (length + 16) xs 0 length limit true true

instance : Inhabited ASTTransformer :=
  ⟨⟨[], 0, [], fun n _ => .ok n⟩⟩

/-- The comparison closure passed to `sort.Slice` in `LoadPlugins`:
`m.transformers[i].Priority() < m.transformers[j].Priority()`. -/
def transformerLess (x y : ASTTransformer) : Bool :=
  decide (x.priority < y.priority)

/-- Embedding of the transformer sort at the end of `Manager.LoadPlugins`
(manager.go lines 143-147): `sort.Slice` on the discovered transformer list
with `less i j = Priority(i) < Priority(j)`. -/
def sortTransformers (ts : List ASTTransformer) : List ASTTransformer :=
  sortSliceGo transformerLess ts

/-! ### Correctness of the insertion-sort path (lists of at most 12)

`pdqsort` dispatches ranges of length ≤ 12 (`maxInsertion`) straight to
`insertionSort`.  The swap-based array loop is related to a list-level
insertion model, for which sortedness and stability are proved. -/

/-- Inserting `x` into a reversed prefix: walk right-to-left past every
element `x` is strictly less than. -/
def insRev {α : Type} (less : α → α → Bool) (x : α) : List α → List α
  | [] => [x]
  | y :: r => if less x y then y :: insRev less x r else x :: y :: r

/-- List-level meaning of the Go inner loop: insert `x` into the prefix
`pre` from the right. -/
def goInsertList {α : Type} (less : α → α → Bool) (pre : List α) (x : α) : List α :=
  (insRev less x pre.reverse).reverse

/-- List-level meaning of the Go outer loop: fold the pending elements into
the sorted prefix. -/
def goInsertFold {α : Type} (less : α → α → Bool) : List α → List α → List α
  | done, [] => done
  | done, x :: todo => goInsertFold less (goInsertList less done x) todo

/-- List-level insertion sort (the meaning of `insertionSortGo` on a full
range). -/
def goInsertionSortList {α : Type} (less : α → α → Bool) (l : List α) : List α :=
  goInsertFold less [] l

theorem getD_append_len {α : Type} (pre : List α) (c : α) (rest : List α) (d : α) :
    (pre ++ c :: rest).getD pre.length d = c := by
  induction pre with
  | nil => rfl
  | cons a l ih =>
    rw [List.cons_append, show (a :: l).length = l.length + 1 from rfl, List.getD_cons_succ]
    exact ih

theorem set_append_len {α : Type} (pre : List α) (c : α) (rest : List α) (v : α) :
    (pre ++ c :: rest).set pre.length v = pre ++ v :: rest := by
  induction pre with
  | nil => rfl
  | cons a l ih =>
    rw [List.cons_append, show (a :: l).length = l.length + 1 from rfl]
    rw [List.set_cons_succ, ih, List.cons_append]

theorem aget_append_len {α : Type} [Inhabited α] (pre : List α) (c : α) (rest : List α) :
    aget (pre ++ c :: rest) pre.length = c :=
  getD_append_len pre c rest default

theorem aswap_adj {α : Type} [Inhabited α] (pre : List α) (y x : α) (suf : List α) :
    aswap (pre ++ y :: x :: suf) (pre.length + 1) pre.length = pre ++ x :: y :: suf := by
  rw [aswap]
  have h1 : aget (pre ++ y :: x :: suf) (pre.length + 1) = x := by
    rw [show pre ++ y :: x :: suf = (pre ++ [y]) ++ x :: suf by simp,
      show pre.length + 1 = (pre ++ [y]).length by simp]
    exact aget_append_len _ _ _
  have h2 : aget (pre ++ y :: x :: suf) pre.length = y := aget_append_len pre y (x :: suf)
  rw [h1, h2]
  have h3 : (pre ++ y :: x :: suf).set (pre.length + 1) y = pre ++ y :: y :: suf := by
    rw [show pre ++ y :: x :: suf = (pre ++ [y]) ++ x :: suf by simp,
      show pre.length + 1 = (pre ++ [y]).length by simp]
    rw [set_append_len]
    simp
  rw [h3, set_append_len]

theorem insRev_length {α : Type} (less : α → α → Bool) (x : α) (r : List α) :
    (insRev less x r).length = r.length + 1 := by
  induction r with
  | nil => rfl
  | cons y r' ih =>
    rw [insRev]
    split
    · simp [ih]
    · simp

theorem insertionSortInnerGo_eq {α : Type} [Inhabited α] (less : α → α → Bool) :
    ∀ (r : List α) (x : α) (suf : List α),
      insertionSortInnerGo less 0 r.length (r.reverse ++ x :: suf) =
        (insRev less x r).reverse ++ suf := by
  intro r
  induction r with
  | nil => intro x suf; simp [insertionSortInnerGo, insRev]
  | cons y r' ih =>
    intro x suf
    rw [show (y :: r').length = r'.length + 1 from rfl, insertionSortInnerGo]
    have hx : aget ((y :: r').reverse ++ x :: suf) (r'.length + 1) = x := by
      rw [show (y :: r').reverse ++ x :: suf = (r'.reverse ++ [y]) ++ x :: suf by simp,
        show r'.length + 1 = (r'.reverse ++ [y]).length by simp]
      exact aget_append_len _ _ _
    have hy : aget ((y :: r').reverse ++ x :: suf) r'.length = y := by
      rw [show (y :: r').reverse ++ x :: suf = r'.reverse ++ y :: (x :: suf) by simp,
        show r'.length = r'.reverse.length by simp]
      exact aget_append_len _ _ _
    rw [hx, hy]
    cases hxy : less x y with
    | true =>
      rw [if_pos (by simp [hxy])]
      have hswap : aswap ((y :: r').reverse ++ x :: suf) (r'.length + 1) r'.length =
          r'.reverse ++ x :: y :: suf := by
        have := aswap_adj r'.reverse y x suf
        rw [List.length_reverse] at this
        rw [show (y :: r').reverse ++ x :: suf = r'.reverse ++ y :: x :: suf by simp]
        exact this
      rw [hswap, ih x (y :: suf)]
      rw [insRev, if_pos hxy]
      simp
    | false =>
      rw [if_neg (by simp [hxy])]
      rw [insRev, if_neg (by simp [hxy])]
      simp

theorem insertionSortOuterGo_eq {α : Type} [Inhabited α] (less : α → α → Bool) :
    ∀ (todo done : List α),
      insertionSortOuterGo less 0 done.length todo.length (done ++ todo) =
        goInsertFold less done todo := by
  intro todo
  induction todo with
  | nil => intro done; simp [insertionSortOuterGo, goInsertFold]
  | cons x todo' ih =>
    intro done
    rw [show (x :: todo').length = todo'.length + 1 from rfl, insertionSortOuterGo,
      show goInsertFold less done (x :: todo') = goInsertFold less (goInsertList less done x) todo'
        from rfl]
    have hinner : insertionSortInnerGo less 0 done.length (done ++ x :: todo') =
        goInsertList less done x ++ todo' := by
      have := insertionSortInnerGo_eq less done.reverse x todo'
      rw [List.length_reverse, List.reverse_reverse] at this
      rw [this, goInsertList]
    rw [hinner]
    have hlen : (goInsertList less done x).length = done.length + 1 := by
      rw [goInsertList]
      simp [insRev_length]
    rw [show done.length + 1 = (goInsertList less done x).length from hlen.symm]
    exact ih (goInsertList less done x)

theorem insertionSortGo_eq_list {α : Type} [Inhabited α] (less : α → α → Bool) (xs : List α) :
    insertionSortGo less xs 0 xs.length = goInsertionSortList less xs := by
  cases xs with
  | nil => rfl
  | cons x0 rest =>
    rw [insertionSortGo]
    rw [show (x0 :: rest).length - (0 + 1) = rest.length by simp]
    rw [show (0 + 1 : Nat) = ([x0] : List α).length from rfl]
    rw [show x0 :: rest = [x0] ++ rest from rfl]
    rw [insertionSortOuterGo_eq less rest [x0]]
    rfl

theorem pdqsortGo_small {α : Type} [Inhabited α] (less : α → α → Bool) (fuel : Nat)
    (data : List α) (b limitv : Nat) (h : b - 0 ≤ 12) :
    pdqsortGo less (fuel + 1) data 0 b limitv true true = insertionSortGo less data 0 b := by
  rw [pdqsortGo]
  exact if_pos h

theorem sortSliceGo_le12 {α : Type} [Inhabited α] (less : α → α → Bool) (xs : List α)
    (h : xs.length ≤ 12) :
    sortSliceGo less xs = insertionSortGo less xs 0 xs.length := by
  have h0 : xs.length - 0 ≤ 12 := by simpa using h
  exact pdqsortGo_small less (xs.length + 15) xs xs.length (bitsLen xs.length) h0

/-- `insertAfterLe x l`: the stable position of `x` in a sorted list — after
every element with priority ≤ `x`'s, before the first strictly greater. -/
def insertAfterLe (x : ASTTransformer) : List ASTTransformer → List ASTTransformer
  | [] => [x]
  | y :: l => if y.priority ≤ x.priority then y :: insertAfterLe x l else x :: y :: l

theorem insertAfterLe_append_gt (x y : ASTTransformer) (l : List ASTTransformer)
    (h : ¬ y.priority ≤ x.priority) :
    insertAfterLe x (l ++ [y]) = insertAfterLe x l ++ [y] := by
  induction l with
  | nil => simp [insertAfterLe, h]
  | cons z l' ih =>
    rw [List.cons_append, insertAfterLe, insertAfterLe]
    split
    · rw [ih, List.cons_append]
    · simp

theorem insertAfterLe_all_le (x : ASTTransformer) (l : List ASTTransformer)
    (h : ∀ u ∈ l, u.priority ≤ x.priority) :
    insertAfterLe x l = l ++ [x] := by
  induction l with
  | nil => rfl
  | cons y l' ih =>
    rw [insertAfterLe, if_pos (h y (by simp)), ih fun u hu => h u (by simp [hu]),
      List.cons_append]

theorem goInsertList_eq_insertAfterLe (x : ASTTransformer) :
    ∀ (r : List ASTTransformer),
      List.Pairwise (fun u v => u.priority ≤ v.priority) r.reverse →
      (insRev transformerLess x r).reverse = insertAfterLe x r.reverse := by
  intro r
  induction r with
  | nil => intro _; rfl
  | cons y r' ih =>
    intro hs
    rw [List.reverse_cons, List.pairwise_append] at hs
    obtain ⟨hs', -, hall⟩ := hs
    rw [insRev]
    cases hxy : transformerLess x y with
    | true =>
      have hlt : x.priority < y.priority := by
        rw [transformerLess, decide_eq_true_eq] at hxy
        exact hxy
      rw [if_pos rfl, List.reverse_cons, List.reverse_cons, ih hs']
      exact (insertAfterLe_append_gt x y r'.reverse (not_le.mpr hlt)).symm
    | false =>
      have hyx : y.priority ≤ x.priority := by
        rw [transformerLess, decide_eq_false_iff_not] at hxy
        exact not_lt.mp hxy
      rw [if_neg (by simp), List.reverse_cons, List.reverse_cons]
      refine (insertAfterLe_all_le x (r'.reverse ++ [y]) ?_).symm
      intro u hu
      rcases List.mem_append.mp hu with hu | hu
      · exact le_trans (hall u hu y (by simp)) hyx
      · rw [List.mem_singleton.mp hu]
        exact hyx

theorem mem_insertAfterLe (u x : ASTTransformer) (l : List ASTTransformer) :
    u ∈ insertAfterLe x l ↔ u = x ∨ u ∈ l := by
  induction l with
  | nil => simp [insertAfterLe]
  | cons y l' ih =>
    rw [insertAfterLe]
    split
    · rw [List.mem_cons, ih, List.mem_cons]
      tauto
    · simp only [List.mem_cons]

theorem sorted_insertAfterLe (x : ASTTransformer) (l : List ASTTransformer)
    (hs : List.Pairwise (fun u v => u.priority ≤ v.priority) l) :
    List.Pairwise (fun u v => u.priority ≤ v.priority) (insertAfterLe x l) := by
  induction l with
  | nil => simp [insertAfterLe]
  | cons y l' ih =>
    rw [List.pairwise_cons] at hs
    obtain ⟨hy, hs'⟩ := hs
    rw [insertAfterLe]
    split
    · next hyx =>
      rw [List.pairwise_cons]
      refine ⟨fun u hu => ?_, ih hs'⟩
      rcases (mem_insertAfterLe u x l').mp hu with hux | hul
      · rw [hux]; exact hyx
      · exact hy u hul
    · next hyx =>
      have hxy : x.priority ≤ y.priority := le_of_lt (not_le.mp hyx)
      rw [List.pairwise_cons]
      refine ⟨fun u hu => ?_, List.Pairwise.cons hy hs'⟩
      rcases List.mem_cons.mp hu with huy | hul
      · rw [huy]; exact hxy
      · exact le_trans hxy (hy u hul)

theorem filter_insertAfterLe (x : ASTTransformer) (l : List ASTTransformer)
    (hs : List.Pairwise (fun u v => u.priority ≤ v.priority) l) (p : Int) :
    (insertAfterLe x l).filter (fun t => decide (t.priority = p)) =
      l.filter (fun t => decide (t.priority = p)) ++
        (if x.priority = p then [x] else []) := by
  induction l with
  | nil =>
    rw [show insertAfterLe x [] = [x] from rfl]
    by_cases hxp : x.priority = p <;> simp [List.filter, hxp]
  | cons y l' ih =>
    rw [List.pairwise_cons] at hs
    obtain ⟨hy, hs'⟩ := hs
    rw [insertAfterLe]
    split
    · next hyx =>
      rw [List.filter_cons, List.filter_cons]
      by_cases hyp : y.priority = p <;> simp [hyp, ih hs']
    · next hyx =>
      have hlt : x.priority < y.priority := not_le.mp hyx
      rw [List.filter_cons]
      by_cases hxp : x.priority = p
      · have hnil : (y :: l').filter (fun t => decide (t.priority = p)) = [] := by
          rw [List.filter_eq_nil_iff]
          intro u hu
          have hup : y.priority ≤ u.priority := by
            rcases List.mem_cons.mp hu with huy | hul
            · rw [huy]
            · exact hy u hul
          have : p < u.priority := lt_of_lt_of_le (hxp ▸ hlt) hup
          simp only [decide_eq_true_eq]
          omega
        rw [hnil]
        simp [hxp, hnil]
      · simp [hxp]

theorem goInsertFold_props :
    ∀ (todo done : List ASTTransformer),
      List.Pairwise (fun u v => u.priority ≤ v.priority) done →
      List.Pairwise (fun u v => u.priority ≤ v.priority)
          (goInsertFold transformerLess done todo)
      ∧ ∀ p : Int,
          (goInsertFold transformerLess done todo).filter (fun t => decide (t.priority = p)) =
            done.filter (fun t => decide (t.priority = p)) ++
              todo.filter (fun t => decide (t.priority = p)) := by
  intro todo
  induction todo with
  | nil =>
    intro done hs
    exact ⟨hs, fun p => by simp [goInsertFold]⟩
  | cons x todo' ih =>
    intro done hs
    have hins : goInsertList transformerLess done x = insertAfterLe x done := by
      rw [goInsertList]
      have := goInsertList_eq_insertAfterLe x done.reverse
      rw [List.reverse_reverse] at this
      exact this hs
    rw [show goInsertFold transformerLess done (x :: todo') =
        goInsertFold transformerLess (goInsertList transformerLess done x) todo' from rfl]
    rw [hins]
    obtain ⟨s1, s2⟩ := ih (insertAfterLe x done) (sorted_insertAfterLe x done hs)
    refine ⟨s1, fun p => ?_⟩
    rw [s2 p, filter_insertAfterLe x done hs p, List.filter_cons]
    by_cases hxp : x.priority = p <;> simp [hxp]

/-- Claim C2 (amended): `LoadPlugins` sorts the transformer list with
`sort.Slice`, which is not stable in general; for at most 12 transformers
(the `maxInsertion` insertion-sort path) the resulting list is sorted
ascending by priority AND stable — for every priority value the
subsequence of transformers with that priority equals the discovery-order
subsequence.  (With 13 or more transformers stability can fail, see the
counterexample.) -/
theorem claim_C2_sorted_stable (ts : List ASTTransformer) (h : ts.length ≤ 12) :
    List.Pairwise (fun u v => u.priority ≤ v.priority) (sortTransformers ts)
    ∧ ∀ p : Int,
        (sortTransformers ts).filter (fun t => decide (t.priority = p)) =
          ts.filter (fun t => decide (t.priority = p)) := by
  rw [sortTransformers, sortSliceGo_le12 _ _ h, insertionSortGo_eq_list]
  have hf := goInsertFold_props ts [] List.Pairwise.nil
  rw [goInsertionSortList]
  exact ⟨hf.1, fun p => by simpa using hf.2 p⟩

/-- A transformer stub used by the C2 scenarios (trivial transform). -/
def demoT (nm : String) (p : Int) : ASTTransformer :=
  ⟨nm.data, p, [], fun n _ => .ok n⟩

/-- The spec's example: transformers discovered with priorities
`[100, 10, 50]`. -/
def demoThreeTransformers : List ASTTransformer :=
  [demoT "t0" 100, demoT "t1" 10, demoT "t2" 50]

/-- Concrete instantiation of the amended C2: the spec's `[100, 10, 50]`
example sorts to application order `[10, 50, 100]`, sorted and stable. -/
theorem claim_C2_witness :
    (List.Pairwise (fun u v => u.priority ≤ v.priority)
        (sortTransformers demoThreeTransformers)
      ∧ ∀ p : Int,
          (sortTransformers demoThreeTransformers).filter
              (fun t => decide (t.priority = p)) =
            demoThreeTransformers.filter (fun t => decide (t.priority = p)))
    ∧ (sortTransformers demoThreeTransformers).map (fun t => t.priority) = [10, 50, 100] :=
  ⟨claim_C2_sorted_stable demoThreeTransformers (by decide), by decide⟩

/-- Thirteen transformers with alternating priorities 2 and 1, in discovery
order `t0 … t12`. -/
def demoThirteenTransformers : List ASTTransformer :=
  [demoT "t0" 2, demoT "t1" 1, demoT "t2" 2, demoT "t3" 1, demoT "t4" 2,
   demoT "t5" 1, demoT "t6" 2, demoT "t7" 1, demoT "t8" 2, demoT "t9" 1,
   demoT "t10" 2, demoT "t11" 1, demoT "t12" 2]

/-- Claim C2, counterexample: with 13 discovered transformers the sort is
not stable — the priority-1 transformers come out in the order
`t9, t1, t3, t5, t7, t11`, not their discovery order, refuting the claimed
tie-preservation at a concrete input. -/
theorem claim_C2_counterexample :
    ((sortTransformers demoThirteenTransformers).filter
        (fun t => decide (t.priority = 1))).map (fun t => t.name) ≠
      ((demoThirteenTransformers.filter
        (fun t => decide (t.priority = 1))).map (fun t => t.name)) := by
  decide

end MdToPdf
